import Mathlib

/-!
Verification of the particle-sphere application (`src/particle-sphere-app`).

The development shallowly embeds the two subsystems the specification talks
about:

* the adaptive performance monitor
  (`src/hooks/usePerformanceMonitor.ts`): quality settings, the
  degrade/upgrade adjustment cycle `adjustQualityBasedOnPerformance`,
  frame recording `recordFrame`, and the metrics update `updateMetrics`;

* the proximity-graph connection pass of the `Neurons` visualisation
  (`src/components/Neurons.tsx`, the connection section of `animate`):
  a spatial hash grid with cell size `connectionDistance`, a 27-cell
  stencil scan with per-particle connection budgets, a global segment
  budget and a neighbour scan limit.

JavaScript numbers are modelled as rationals (ℚ); machine floating point
is out of scope.  Array indices are naturals, grid cells are integer
triples (the string key `"x|y|z"` is injective on integer triples, so a
triple-keyed map is a faithful model).
-/

namespace Particles

/-! ### Performance monitor: data model (usePerformanceMonitor.ts) -/

/-- Quality settings adjusted by the monitor (`QualitySettings` in
usePerformanceMonitor.ts). -/
structure QualitySettings where
  particleCount : ℚ
  effectsLevel : ℚ
  renderScale : ℚ
  deriving DecidableEq

/-- The resolved configuration of the monitor (destructured options of
`usePerformanceMonitor` after defaults are applied). -/
structure MonitorConfig where
  targetFps : ℚ
  minParticleCount : ℚ
  maxParticleCount : ℚ
  particleCountStep : ℚ
  deriving DecidableEq

/-- Raw options of `usePerformanceMonitor` (`PerformanceMonitorOptions`):
only `initialParticleCount` is mandatory, the rest are optional. -/
structure PerformanceMonitorOptions where
  initialParticleCount : ℚ
  targetFps : Option ℚ
  minParticleCount : Option ℚ
  maxParticleCount : Option ℚ
  particleCountStep : Option ℚ
  deriving DecidableEq

/-- Resolution of the options with their defaults, exactly as in the
destructuring at the top of `usePerformanceMonitor`.  The hook performs no
validation whatsoever: every options value yields a configuration. -/
def resolveMonitorOptions (o : PerformanceMonitorOptions) : MonitorConfig :=
  { targetFps := o.targetFps.getD 50
    minParticleCount := o.minParticleCount.getD (o.initialParticleCount * (2/10))
    maxParticleCount := o.maxParticleCount.getD (o.initialParticleCount * 2)
    particleCountStep := o.particleCountStep.getD (o.initialParticleCount * (1/10)) }

/-- Initial quality state of the hook (`useState` initialiser). -/
def initialQuality (o : PerformanceMonitorOptions) : QualitySettings :=
  { particleCount := o.initialParticleCount, effectsLevel := 1, renderScale := 1 }

/-- The degrade branch of `adjustQualityBasedOnPerformance`
(`fpsDeficit > 5`): reduce particle count clamped to the minimum; if that
left the count unchanged and effects are above 0, reduce the effects
level; if both are unchanged and the render scale is above 0.5, reduce
the render scale by 0.1 clamped to 0.5. -/
def degradeQuality (cfg : MonitorConfig) (q : QualitySettings) : QualitySettings :=
  let newParticleCount := max cfg.minParticleCount (q.particleCount - cfg.particleCountStep)
  let effectsLevel :=
    if newParticleCount = q.particleCount ∧ q.effectsLevel > 0 then
      q.effectsLevel - 1
    else q.effectsLevel
  let renderScale :=
    if newParticleCount = q.particleCount ∧ effectsLevel = q.effectsLevel ∧
        q.renderScale > 1/2 then
      max (1/2) (q.renderScale - 1/10)
    else q.renderScale
  { particleCount := newParticleCount, effectsLevel := effectsLevel,
    renderScale := renderScale }

/-- The upgrade branch of `adjustQualityBasedOnPerformance`
(`fpsDeficit < -10 && avgFps > targetFps + 15`): raise the render scale
toward 1.0 first, then the effects level toward 2, then the particle
count clamped to the maximum. -/
def upgradeQuality (cfg : MonitorConfig) (q : QualitySettings) : QualitySettings :=
  if q.renderScale < 95/100 then
    { q with renderScale := min 1 (q.renderScale + 1/10) }
  else if q.effectsLevel < 2 then
    { q with effectsLevel := q.effectsLevel + 1 }
  else
    { q with particleCount := min cfg.maxParticleCount (q.particleCount + cfg.particleCountStep) }

/-- Average fps over the history buffer (`reduce(...)/length`). -/
def avgOf (hist : List ℚ) : ℚ := hist.sum / (hist.length : ℚ)

/-- `fpsDeficit = targetFps - avgFps`. -/
def deficitOf (cfg : MonitorConfig) (hist : List ℚ) : ℚ :=
  cfg.targetFps - avgOf hist

/-- The stability counter after one evaluation: incremented when the
deficit magnitude is below 5, reset to 0 otherwise. -/
def stabAfter (cfg : MonitorConfig) (stab : ℕ) (hist : List ℚ) : ℕ :=
  if |deficitOf cfg hist| < 5 then stab + 1 else 0

/-- One evaluation cycle of `adjustQualityBasedOnPerformance`: skip when
fewer than 3 readings are buffered; update the stability counter; when
the gate (`stableCount ≥ 3 || deficit > 15`) passes, zero the counter and
run the degrade branch (`deficit > 5`), the upgrade branch
(`deficit < -10 && avgFps > targetFps + 15`), or neither. -/
def adjustQualityBasedOnPerformance (cfg : MonitorConfig)
    (st : QualitySettings × ℕ) (hist : List ℚ) : QualitySettings × ℕ :=
  if hist.length < 3 then st
  else
    let deficit := deficitOf cfg hist
    let stab' := stabAfter cfg st.2 hist
    if stab' ≥ 3 ∨ deficit > 15 then
      let q' :=
        if deficit > 5 then degradeQuality cfg st.1
        else if deficit < -10 ∧ avgOf hist > cfg.targetFps + 15 then
          upgradeQuality cfg st.1
        else st.1
      (q', 0)
    else (st.1, stab')

/-- A run of adjustment cycles, one fps-history buffer per cycle. -/
def runCycles (cfg : MonitorConfig) (st : QualitySettings × ℕ)
    (runs : List (List ℚ)) : QualitySettings × ℕ :=
  runs.foldl (adjustQualityBasedOnPerformance cfg) st

/-- The bounds the specification claims invariant: particle count within
the configured window, render scale within `[0.5, 1.0]`, effects level in
`{0, 1, 2}`. -/
def inBounds (cfg : MonitorConfig) (q : QualitySettings) : Prop :=
  cfg.minParticleCount ≤ q.particleCount ∧
  q.particleCount ≤ cfg.maxParticleCount ∧
  (1/2 : ℚ) ≤ q.renderScale ∧ q.renderScale ≤ 1 ∧
  (q.effectsLevel = 0 ∨ q.effectsLevel = 1 ∨ q.effectsLevel = 2)

instance (cfg : MonitorConfig) (q : QualitySettings) : Decidable (inBounds cfg q) := by
  unfold inBounds; infer_instance

/-! ### Performance monitor: frame recording and metrics -/

/-- Mutable per-interval counters touched by `recordFrame`. -/
structure FrameState where
  frameCount : ℕ
  frameTimes : List ℚ
  deriving DecidableEq

/-- The `while (arr.length > cap) arr.shift()` trimming loop: drop from
the front until at most `cap` entries remain. -/
def trimFifo (cap : ℕ) : List ℚ → List ℚ
  | [] => []
  | x :: xs => if xs.length + 1 > cap then trimFifo cap xs else x :: xs

/-- `recordFrame(frameDuration?)`: increment the frame counter
unconditionally; when a duration is supplied, `if (frameDuration)` is a
JavaScript truthiness test, so only a nonzero duration is pushed onto the
FIFO, which is then trimmed to 30 entries from the front. -/
def recordFrame (d : Option ℚ) (s : FrameState) : FrameState :=
  let s1 : FrameState := { s with frameCount := s.frameCount + 1 }
  match d with
  | some v =>
      if v ≠ 0 then { s1 with frameTimes := trimFifo 30 (s1.frameTimes ++ [v]) }
      else s1
  | none => s1

/-- State of the periodic metrics update. -/
structure MetricsState where
  frameCount : ℕ
  frameTimes : List ℚ
  fps : ℚ
  frameTime : ℚ
  fpsHistory : List ℚ
  deriving DecidableEq

/-- `Math.round` on a nonnegative-or-any rational, as JavaScript defines
it: floor of `x + 1/2`. -/
def jsRound (x : ℚ) : ℤ := ⌊x + 1/2⌋

/-- `updateMetrics`: compute fps guarding `deltaTime > 0`, compute the
average frame time guarding an empty FIFO, push the fps onto the history
(trimmed to 5), and reset the per-interval counters. -/
def updateMetrics (deltaTime : ℚ) (s : MetricsState) : MetricsState :=
  let fps : ℚ :=
    if deltaTime > 0 then ((jsRound ((s.frameCount : ℚ) * 1000 / deltaTime) : ℤ) : ℚ)
    else 0
  let frameTime : ℚ :=
    if s.frameTimes.length > 0 then s.frameTimes.sum / (s.frameTimes.length : ℚ)
    else 0
  { frameCount := 0
    frameTimes := []
    fps := fps
    frameTime := frameTime
    fpsHistory := trimFifo 5 (s.fpsHistory ++ [fps]) }

/-! ### Neurons: the proximity-graph connection pass (Neurons.tsx)

The `animate` loop of `Neurons.tsx` stores every particle index in a
spatial hash bucket keyed by its grid cell (`Math.floor(coord *
invCellSize)` per axis, `cellSize = connectionDistance`), then for every
particle scans the 27 neighbouring cells in lexicographic offset order,
skipping indices `j ≤ i`, counting every scanned candidate against
`neighbourScanLimit`, stopping the scan when the per-particle budget
`maxConnectionsPerParticle` or the global budget `maxSegments` is
reached, and emitting a segment for every candidate within
`connectionDistance`. -/

/-- A particle position. -/
structure Point where
  x : ℚ
  y : ℚ
  z : ℚ
  deriving DecidableEq

/-- The part of `NeuronConfig` the connection pass reads. -/
structure NeuronConfig where
  connectionDistance : ℚ
  maxConnectionsPerParticle : ℕ
  neighbourScanLimit : ℕ
  maxSegments : ℕ
  deriving DecidableEq

/-- Position lookup; the code only indexes inside bounds. -/
def pos (ps : List Point) (i : ℕ) : Point := ps.getD i (Point.mk 0 0 0)

/-- `invCellSize = cellSize > 0 ? 1 / cellSize : 1`. -/
def invCellSize (cfg : NeuronConfig) : ℚ :=
  if cfg.connectionDistance > 0 then 1 / cfg.connectionDistance else 1

/-- The grid cell of a position: `Math.floor(coord * invCellSize)` on
each axis. -/
def cellOf (cfg : NeuronConfig) (p : Point) : ℤ × ℤ × ℤ :=
  (⌊p.x * invCellSize cfg⌋, ⌊p.y * invCellSize cfg⌋, ⌊p.z * invCellSize cfg⌋)

/-- Squared euclidean distance (`dx*dx + dy*dy + dz*dz`). -/
def distSq (p q : Point) : ℚ :=
  (q.x - p.x) * (q.x - p.x) + (q.y - p.y) * (q.y - p.y) + (q.z - p.z) * (q.z - p.z)

/-- The hash bucket of a cell key: particle indices are pushed in
ascending order during the update loop, so the bucket is the ascending
list of indices whose cell is the key. -/
def bucket (cfg : NeuronConfig) (ps : List Point) (k : ℤ × ℤ × ℤ) : List ℕ :=
  (List.range ps.length).filter (fun i => cellOf cfg (pos ps i) = k)

/-- The 27 stencil offsets in the loop order of the code
(`dxCell`, then `dyCell`, then `dzCell`, each from −1 to 1). -/
def stencil : List (ℤ × ℤ × ℤ) :=
  [(-1, -1, -1), (-1, -1, 0), (-1, -1, 1),
   (-1, 0, -1), (-1, 0, 0), (-1, 0, 1),
   (-1, 1, -1), (-1, 1, 0), (-1, 1, 1),
   (0, -1, -1), (0, -1, 0), (0, -1, 1),
   (0, 0, -1), (0, 0, 0), (0, 0, 1),
   (0, 1, -1), (0, 1, 0), (0, 1, 1),
   (1, -1, -1), (1, -1, 0), (1, -1, 1),
   (1, 0, -1), (1, 0, 0), (1, 0, 1),
   (1, 1, -1), (1, 1, 0), (1, 1, 1)]

/-- The candidate indices particle `i` scans: the buckets of the 27
stencil cells around its own cell, concatenated in stencil order. -/
def candidates (cfg : NeuronConfig) (ps : List Point) (i : ℕ) : List ℕ :=
  stencil.flatMap (fun o => bucket cfg ps (cellOf cfg (pos ps i) + o))

/-- The inner neighbour scan for particle `i`: walk the candidate list,
skip `j ≤ i` (not counted), count every other candidate against
`neighbourScanLimit` (`break outer` past the limit), stop on the
connection or segment budget, skip candidates beyond
`connectionDistance`, and append a segment `(i, j)` otherwise.  `segs` is
the global emitted-segment list (its length is `segmentIndex`), `conns`
is `connectionsForParticle`, `checked` is `neighboursChecked`. -/
def scanNeighbours (cfg : NeuronConfig) (ps : List Point) (i : ℕ) :
    List ℕ → List (ℕ × ℕ) → ℕ → ℕ → List (ℕ × ℕ)
  | [], segs, _, _ => segs
  | j :: rest, segs, conns, checked =>
    if j ≤ i then scanNeighbours cfg ps i rest segs conns checked
    else if checked + 1 > cfg.neighbourScanLimit then segs
    else if conns ≥ cfg.maxConnectionsPerParticle ∨ segs.length ≥ cfg.maxSegments then
      segs
    else if distSq (pos ps i) (pos ps j) >
        cfg.connectionDistance * cfg.connectionDistance then
      scanNeighbours cfg ps i rest segs conns (checked + 1)
    else
      scanNeighbours cfg ps i rest (segs ++ [(i, j)]) (conns + 1) (checked + 1)

/-- The body of the outer `for` loop over particles: skip `i` when its
own bucket is empty or the segment budget is exhausted, otherwise scan
its candidates. -/
def connectionStep (cfg : NeuronConfig) (ps : List Point)
    (segs : List (ℕ × ℕ)) (i : ℕ) : List (ℕ × ℕ) :=
  if (bucket cfg ps (cellOf cfg (pos ps i))).length = 0 then segs
  else if segs.length ≥ cfg.maxSegments then segs
  else scanNeighbours cfg ps i (candidates cfg ps i) segs 0 0

/-- The full connection pass of one `animate` frame: the list of emitted
segments `(i, j)`, `i < j`, in emission order. -/
def connectionPass (cfg : NeuronConfig) (ps : List Point) : List (ℕ × ℕ) :=
  (List.range ps.length).foldl (connectionStep cfg ps) []

/-- Brute-force all-pairs comparison at the same `connectionDistance`
(the specification's reference semantics): every pair `i < j` with
squared distance at most `connectionDistance²`. -/
def brutePairs (cfg : NeuronConfig) (ps : List Point) : List (ℕ × ℕ) :=
  (List.range ps.length).flatMap (fun i =>
    ((List.range ps.length).filter (fun j => i < j ∧
      distSq (pos ps i) (pos ps j) ≤
        cfg.connectionDistance * cfg.connectionDistance)).map (fun j => (i, j)))

/-- A qualifying pair: `i < j`, both in range, within
`connectionDistance`. -/
def qualifies (cfg : NeuronConfig) (ps : List Point) (i j : ℕ) : Prop :=
  i < j ∧ j < ps.length ∧
  distSq (pos ps i) (pos ps j) ≤ cfg.connectionDistance * cfg.connectionDistance

/-- Number of emitted edges having `i` as either endpoint (the
specification's reading of "edges include `i`"). -/
def edgesIncluding (segs : List (ℕ × ℕ)) (i : ℕ) : ℕ :=
  (segs.filter (fun p => p.1 = i ∨ p.2 = i)).length

/-- Number of emitted edges having `i` as their first (lower) endpoint —
the quantity the code actually budgets with `connectionsForParticle`. -/
def edgesFrom (segs : List (ℕ × ℕ)) (i : ℕ) : ℕ :=
  (segs.filter (fun p => p.1 = i)).length

/-! ### Performance monitor: helper lemmas -/

/-- `trimFifo` is the suffix of the last `cap` entries. -/
theorem trimFifo_eq_drop (cap : ℕ) (l : List ℚ) :
    trimFifo cap l = l.drop (l.length - cap) := by
  induction l with
  | nil => simp [trimFifo]
  | cons x xs ih =>
    by_cases h : xs.length + 1 > cap
    · have hk : xs.length + 1 - cap = (xs.length - cap) + 1 := by omega
      simp only [trimFifo, if_pos h, List.length_cons, hk, List.drop_succ_cons, ih]
    · have hk : xs.length + 1 - cap = 0 := by omega
      simp only [trimFifo, if_neg h, List.length_cons, hk, List.drop_zero]

/-- One degrade step keeps the quality settings in bounds, provided the
configured window is nonempty and the step is nonnegative. -/
theorem degradeQuality_inBounds (cfg : MonitorConfig) (q : QualitySettings)
    (hmm : cfg.minParticleCount ≤ cfg.maxParticleCount)
    (hstep : 0 ≤ cfg.particleCountStep) (hq : inBounds cfg q) :
    inBounds cfg (degradeQuality cfg q) := by
  obtain ⟨h1, h2, h3, h4, h5⟩ := hq
  unfold degradeQuality inBounds
  dsimp only
  refine ⟨le_max_left _ _, max_le hmm (by linarith), ?_, ?_, ?_⟩
  · split_ifs <;> first | exact le_max_left _ _ | exact h3
  · split_ifs <;> first | exact max_le (by norm_num) (by linarith) | exact h4
  · split_ifs with h
    · rcases h5 with h5 | h5 | h5
      · rw [h5] at h; exact absurd h.2 (by norm_num)
      · rw [h5]; norm_num
      · rw [h5]; norm_num
    · exact h5

/-- One upgrade step keeps the quality settings in bounds, provided the
configured window is nonempty and the step is nonnegative. -/
theorem upgradeQuality_inBounds (cfg : MonitorConfig) (q : QualitySettings)
    (hmm : cfg.minParticleCount ≤ cfg.maxParticleCount)
    (hstep : 0 ≤ cfg.particleCountStep) (hq : inBounds cfg q) :
    inBounds cfg (upgradeQuality cfg q) := by
  obtain ⟨h1, h2, h3, h4, h5⟩ := hq
  unfold upgradeQuality inBounds
  split_ifs with hrs hel
  · exact ⟨h1, h2, le_min (by norm_num) (by linarith), min_le_left _ _, h5⟩
  · refine ⟨h1, h2, h3, h4, ?_⟩
    rcases h5 with h5 | h5 | h5 <;> rw [h5]
    · norm_num
    · norm_num
    · rw [h5] at hel; exact absurd hel (by norm_num)
  · exact ⟨le_min hmm (by linarith), min_le_left _ _, h3, h4, h5⟩

/-- One full evaluation cycle preserves the bounds. -/
theorem adjust_inBounds (cfg : MonitorConfig) (q : QualitySettings) (stab : ℕ)
    (hist : List ℚ)
    (hmm : cfg.minParticleCount ≤ cfg.maxParticleCount)
    (hstep : 0 ≤ cfg.particleCountStep) (hq : inBounds cfg q) :
    inBounds cfg (adjustQualityBasedOnPerformance cfg (q, stab) hist).1 := by
  unfold adjustQualityBasedOnPerformance
  dsimp only
  split_ifs
  all_goals
    first
      | exact hq
      | exact degradeQuality_inBounds cfg q hmm hstep hq
      | exact upgradeQuality_inBounds cfg q hmm hstep hq

/-! ### Claim theorems: performance monitor -/

/-- C2 counterexample: the claim quantifies over every configuration with
`minParticleCount ≤ maxParticleCount`, but a configuration with a negative
`particleCountStep` makes the degrade branch *increase* the particle
count past `maxParticleCount`: with `min = 0`, `max = 10`, `step = -5`,
target 60 and fps history `[20,20,20]`, a single cycle moves
`particleCount` from 10 (in bounds) to 15 > 10. -/
theorem bounds_invariant_counterexample :
    (MonitorConfig.mk 60 0 10 (-5)).minParticleCount ≤
      (MonitorConfig.mk 60 0 10 (-5)).maxParticleCount ∧
    inBounds (MonitorConfig.mk 60 0 10 (-5)) (QualitySettings.mk 10 1 1) ∧
    ¬ inBounds (MonitorConfig.mk 60 0 10 (-5))
        (runCycles (MonitorConfig.mk 60 0 10 (-5))
          (QualitySettings.mk 10 1 1, 0) [[20, 20, 20]]).1 := by
  refine ⟨by norm_num, by norm_num [inBounds], ?_⟩
  have hrun : (runCycles (MonitorConfig.mk 60 0 10 (-5))
      (QualitySettings.mk 10 1 1, 0) [[20, 20, 20]]).1 =
      QualitySettings.mk 15 1 1 := by
    norm_num [runCycles, adjustQualityBasedOnPerformance, deficitOf, avgOf,
      stabAfter, degradeQuality]
  rw [hrun]
  norm_num [inBounds]

/-- C2 (amended with `0 ≤ particleCountStep`): for every sequence of
adjustment cycles starting in bounds, with `min ≤ max` and a nonnegative
particle-count step, the controller keeps `particleCount` within
`[minParticleCount, maxParticleCount]`, `renderScale` within `[0.5, 1]`
and `effectsLevel` within `{0, 1, 2}` after every cycle. -/
theorem quality_bounds_invariant (cfg : MonitorConfig) (q : QualitySettings)
    (stab : ℕ) (runs : List (List ℚ))
    (hmm : cfg.minParticleCount ≤ cfg.maxParticleCount)
    (hstep : 0 ≤ cfg.particleCountStep) (hq : inBounds cfg q) :
    inBounds cfg (runCycles cfg (q, stab) runs).1 := by
  induction runs generalizing q stab with
  | nil => exact hq
  | cons h t ih =>
    have hstep1 := adjust_inBounds cfg q stab h hmm hstep hq
    have hpair : adjustQualityBasedOnPerformance cfg (q, stab) h =
        ((adjustQualityBasedOnPerformance cfg (q, stab) h).1,
         (adjustQualityBasedOnPerformance cfg (q, stab) h).2) := rfl
    unfold runCycles
    rw [List.foldl_cons, hpair]
    exact ih _ _ hstep1

/-- C2 witness: a concrete run of one degrade cycle stays in bounds. -/
theorem quality_bounds_invariant_witness :
    (MonitorConfig.mk 60 2 20 3).minParticleCount ≤
      (MonitorConfig.mk 60 2 20 3).maxParticleCount ∧
    (0 : ℚ) ≤ (MonitorConfig.mk 60 2 20 3).particleCountStep ∧
    inBounds (MonitorConfig.mk 60 2 20 3) (QualitySettings.mk 10 1 1) ∧
    inBounds (MonitorConfig.mk 60 2 20 3)
      (runCycles (MonitorConfig.mk 60 2 20 3)
        (QualitySettings.mk 10 1 1, 0) [[20, 20, 20]]).1 :=
  ⟨by norm_num, by norm_num, by norm_num [inBounds],
   quality_bounds_invariant (MonitorConfig.mk 60 2 20 3)
     (QualitySettings.mk 10 1 1) 0 [[20, 20, 20]]
     (by norm_num) (by norm_num) (by norm_num [inBounds])⟩

/-- C5: whenever an adjustment fires with `deficit > 5`, the result is
exactly one degrade step, and the degrade step touches the levers in
strict order: the particle count moves to
`max minParticleCount (particleCount - particleCountStep)`; the effects
level changes only if the particle count is unchanged (then it drops by 1
from a positive level); the render scale changes only if particle count
and effects level are both unchanged (then it drops by 0.1 clamped to
0.5).  In particular, fps history `[20,20,20]` with `targetFps = 60`
fires after a single cycle (deficit `40 > 15` bypasses the stability
gate) and decreases the particle count by exactly `particleCountStep`
when that stays above `minParticleCount`. -/
theorem degrade_path_strict_order :
    (∀ (cfg : MonitorConfig) (q : QualitySettings) (stab : ℕ) (hist : List ℚ),
      3 ≤ hist.length →
      stabAfter cfg stab hist ≥ 3 ∨ deficitOf cfg hist > 15 →
      deficitOf cfg hist > 5 →
      (adjustQualityBasedOnPerformance cfg (q, stab) hist).1 = degradeQuality cfg q ∧
      (degradeQuality cfg q).particleCount =
        max cfg.minParticleCount (q.particleCount - cfg.particleCountStep) ∧
      ((degradeQuality cfg q).effectsLevel ≠ q.effectsLevel →
        (degradeQuality cfg q).particleCount = q.particleCount ∧
        0 < q.effectsLevel ∧
        (degradeQuality cfg q).effectsLevel = q.effectsLevel - 1) ∧
      ((degradeQuality cfg q).renderScale ≠ q.renderScale →
        (degradeQuality cfg q).particleCount = q.particleCount ∧
        (degradeQuality cfg q).effectsLevel = q.effectsLevel ∧
        (degradeQuality cfg q).renderScale = max (1/2) (q.renderScale - 1/10))) ∧
    (∀ (cfg : MonitorConfig) (q : QualitySettings) (stab : ℕ),
      cfg.targetFps = 60 →
      cfg.minParticleCount ≤ q.particleCount - cfg.particleCountStep →
      (adjustQualityBasedOnPerformance cfg (q, stab) [20, 20, 20]).1.particleCount =
        q.particleCount - cfg.particleCountStep) := by
  have hdeg : ∀ (cfg : MonitorConfig) (q : QualitySettings),
      (degradeQuality cfg q).particleCount =
        max cfg.minParticleCount (q.particleCount - cfg.particleCountStep) ∧
      ((degradeQuality cfg q).effectsLevel ≠ q.effectsLevel →
        (degradeQuality cfg q).particleCount = q.particleCount ∧
        0 < q.effectsLevel ∧
        (degradeQuality cfg q).effectsLevel = q.effectsLevel - 1) ∧
      ((degradeQuality cfg q).renderScale ≠ q.renderScale →
        (degradeQuality cfg q).particleCount = q.particleCount ∧
        (degradeQuality cfg q).effectsLevel = q.effectsLevel ∧
        (degradeQuality cfg q).renderScale = max (1/2) (q.renderScale - 1/10)) := by
    intro cfg q
    unfold degradeQuality
    dsimp only
    refine ⟨rfl, ?_, ?_⟩
    · split_ifs with h
      · exact fun _ => ⟨h.1, h.2, rfl⟩
      · exact fun hne => absurd rfl hne
    · split_ifs with h1 h2 h3
      · exact fun _ => ⟨h2.1, h2.2.1, rfl⟩
      · exact fun hne => absurd rfl hne
      · exact fun _ => ⟨h3.1, h3.2.1, rfl⟩
      · exact fun hne => absurd rfl hne
  have hfire : ∀ (cfg : MonitorConfig) (q : QualitySettings) (stab : ℕ)
      (hist : List ℚ), 3 ≤ hist.length →
      stabAfter cfg stab hist ≥ 3 ∨ deficitOf cfg hist > 15 →
      deficitOf cfg hist > 5 →
      (adjustQualityBasedOnPerformance cfg (q, stab) hist).1 =
        degradeQuality cfg q := by
    intro cfg q stab hist hlen hgate hdef
    unfold adjustQualityBasedOnPerformance
    dsimp only
    rw [if_neg (by omega), if_pos hgate, if_pos hdef]
  refine ⟨fun cfg q stab hist hlen hgate hdef =>
    ⟨hfire cfg q stab hist hlen hgate hdef, hdeg cfg q⟩, ?_⟩
  intro cfg q stab htgt hmin
  have hd : deficitOf cfg [20, 20, 20] = 40 := by
    rw [deficitOf, avgOf, htgt]; norm_num
  have h1 : (adjustQualityBasedOnPerformance cfg (q, stab) [20, 20, 20]).1 =
      degradeQuality cfg q :=
    hfire cfg q stab [20, 20, 20] (by norm_num) (Or.inr (by rw [hd]; norm_num))
      (by rw [hd]; norm_num)
  rw [h1, (hdeg cfg q).1, max_eq_right hmin]

/-- C5 witness: target 60, window `[0, 100]`, step 5, particle count 50:
the cycle on history `[20,20,20]` lowers the particle count to 45. -/
theorem degrade_path_strict_order_witness :
    (MonitorConfig.mk 60 0 100 5).targetFps = 60 ∧
    (MonitorConfig.mk 60 0 100 5).minParticleCount ≤
      (QualitySettings.mk 50 1 1).particleCount -
        (MonitorConfig.mk 60 0 100 5).particleCountStep ∧
    (adjustQualityBasedOnPerformance (MonitorConfig.mk 60 0 100 5)
      (QualitySettings.mk 50 1 1, 0) [20, 20, 20]).1.particleCount = 45 := by
  refine ⟨rfl, by norm_num, ?_⟩
  have h := degrade_path_strict_order.2 (MonitorConfig.mk 60 0 100 5)
    (QualitySettings.mk 50 1 1) 0 rfl (by norm_num)
  rw [h]; norm_num

/-- C6: the upgrade branch of `adjustQualityBasedOnPerformance` is
unreachable.  Its guard needs `deficit < -10`, but any such deficit has
magnitude above 5, which resets the stability counter to 0 immediately
before the gate `stableCount ≥ 3 || deficit > 15`; the gate therefore
fails and the cycle leaves the quality settings untouched.  In
particular, sustained `avgFps = targetFps + 20` never raises
`renderScale`, contradicting the claimed graceful-upgrade behaviour. -/
theorem upgrade_branch_unreachable (cfg : MonitorConfig)
    (q : QualitySettings) (stab : ℕ) (hist : List ℚ)
    (hdef : deficitOf cfg hist < -10) :
    (adjustQualityBasedOnPerformance cfg (q, stab) hist).1 = q := by
  unfold adjustQualityBasedOnPerformance
  dsimp only
  by_cases h1 : hist.length < 3
  · rw [if_pos h1]
  · rw [if_neg h1]
    have hstab : stabAfter cfg stab hist = 0 := by
      rw [stabAfter, if_neg (by rw [abs_lt]; intro h; linarith [h.1])]
    have hgate : ¬ (stabAfter cfg stab hist ≥ 3 ∨ deficitOf cfg hist > 15) := by
      rw [hstab]; push_neg; exact ⟨by omega, by linarith⟩
    rw [if_neg hgate]

/-- C6 witness: target 60, history `[80,80,80]` (deficit −20),
`renderScale = 0.6`, stability counter 2: the cycle changes nothing,
where the claim promises `renderScale` to rise to 0.7. -/
theorem upgrade_branch_unreachable_witness :
    deficitOf (MonitorConfig.mk 60 80 300 20) [80, 80, 80] < -10 ∧
    (adjustQualityBasedOnPerformance (MonitorConfig.mk 60 80 300 20)
      (QualitySettings.mk 100 1 (6/10), 2) [80, 80, 80]).1 =
      QualitySettings.mk 100 1 (6/10) :=
  ⟨by norm_num [deficitOf, avgOf],
   upgrade_branch_unreachable (MonitorConfig.mk 60 80 300 20)
     (QualitySettings.mk 100 1 (6/10)) 2 [80, 80, 80]
     (by norm_num [deficitOf, avgOf])⟩

/-- A cycle whose deficit magnitude is below 5 leaves quality unchanged. -/
theorem small_deficit_no_change (cfg : MonitorConfig)
    (q : QualitySettings) (stab : ℕ) (hist : List ℚ)
    (hdef : |deficitOf cfg hist| < 5) :
    (adjustQualityBasedOnPerformance cfg (q, stab) hist).1 = q := by
  have habs := abs_lt.mp hdef
  unfold adjustQualityBasedOnPerformance
  dsimp only
  split_ifs with h1 h2 h3 h4
  · rfl
  · exfalso; linarith [habs.2]
  · exfalso; linarith [habs.1, h4.1]
  · rfl
  · rfl

/-- Quality is unchanged across any run of small-deficit cycles. -/
theorem small_deficit_run_no_change (cfg : MonitorConfig)
    (q : QualitySettings) (stab : ℕ) (runs : List (List ℚ))
    (hsmall : ∀ h ∈ runs, |deficitOf cfg h| < 5) :
    (runCycles cfg (q, stab) runs).1 = q := by
  induction runs generalizing stab with
  | nil => rfl
  | cons h t ih =>
    have h1 : adjustQualityBasedOnPerformance cfg (q, stab) h =
        (q, (adjustQualityBasedOnPerformance cfg (q, stab) h).2) := by
      have := small_deficit_no_change cfg q stab h (hsmall h (List.mem_cons_self h t))
      exact Prod.ext this rfl
    unfold runCycles at ih ⊢
    rw [List.foldl_cons, h1]
    exact ih _ (fun x hx => hsmall x (List.mem_cons_of_mem h hx))

/-- C7: over any run of at least 10 evaluation cycles whose deficit
magnitude stays below 5 (with full history buffers), no quality lever
changes at any cycle of the run; yet the stability counter does reach the
gate: starting from 0 it is back at 0 after the first three cycles,
having passed the `stableCount ≥ 3` gate on the third. -/
theorem hysteresis_no_change (cfg : MonitorConfig) (q : QualitySettings)
    (stab : ℕ) (runs : List (List ℚ))
    (hlen : 10 ≤ runs.length)
    (hfull : ∀ h ∈ runs, 3 ≤ h.length)
    (hsmall : ∀ h ∈ runs, |deficitOf cfg h| < 5) :
    (∀ k, (runCycles cfg (q, stab) (runs.take k)).1 = q) ∧
    (runCycles cfg (q, 0) (runs.take 3)).2 = 0 := by
  constructor
  · intro k
    exact small_deficit_run_no_change cfg q stab (runs.take k)
      (fun x hx => hsmall x (List.take_subset k runs hx))
  · match runs, hlen with
    | a :: b :: c :: rest, _ =>
      have ha3 : ¬ a.length < 3 := by
        have := hfull a (by simp); omega
      have hb3 : ¬ b.length < 3 := by
        have := hfull b (by simp); omega
      have hc3 : ¬ c.length < 3 := by
        have := hfull c (by simp); omega
      have hsa := abs_lt.mp (hsmall a (by simp))
      have hsb := abs_lt.mp (hsmall b (by simp))
      have hsc := abs_lt.mp (hsmall c (by simp))
      have step : ∀ (q' : QualitySettings) (s : ℕ) (h : List ℚ),
          ¬ h.length < 3 → |deficitOf cfg h| < 5 →
          adjustQualityBasedOnPerformance cfg (q', s) h =
            if s + 1 ≥ 3 then (q', 0) else (q', s + 1) := by
        intro q' s h hh hs
        have habs := abs_lt.mp hs
        unfold adjustQualityBasedOnPerformance
        dsimp only
        rw [if_neg hh, stabAfter, if_pos hs]
        by_cases hgate : s + 1 ≥ 3
        · rw [if_pos (Or.inl hgate), if_pos hgate,
            if_neg (by linarith [habs.2] : ¬ deficitOf cfg h > 5),
            if_neg (fun hc => absurd hc.1 (by linarith [habs.1]))]
        · have hng : ¬ (s + 1 ≥ 3 ∨ deficitOf cfg h > 15) := by
            push_neg; exact ⟨by omega, by linarith [habs.2]⟩
          rw [if_neg hng, if_neg hgate]
      show (runCycles cfg (q, 0) (List.take 3 (a :: b :: c :: rest))).2 = 0
      rw [show List.take 3 (a :: b :: c :: rest) = [a, b, c] from rfl]
      unfold runCycles
      rw [List.foldl_cons, step q 0 a ha3 (hsmall a (by simp))]
      rw [if_neg (by omega)]
      rw [List.foldl_cons, step q 1 b hb3 (hsmall b (by simp))]
      rw [if_neg (by omega)]
      rw [List.foldl_cons, step q 2 c hc3 (hsmall c (by simp))]
      rw [if_pos (by omega)]
      rfl

/-- C7 witness: ten cycles at exactly the target leave a concrete quality
state untouched and return the stability counter to 0 after 3 cycles. -/
theorem hysteresis_no_change_witness :
    10 ≤ (List.replicate 10 [60, 60, 60] : List (List ℚ)).length ∧
    (∀ h ∈ (List.replicate 10 [60, 60, 60] : List (List ℚ)), 3 ≤ h.length) ∧
    (∀ h ∈ (List.replicate 10 [60, 60, 60] : List (List ℚ)),
      |deficitOf (MonitorConfig.mk 60 80 300 20) h| < 5) ∧
    (runCycles (MonitorConfig.mk 60 80 300 20)
      (QualitySettings.mk 100 1 1, 0)
      ((List.replicate 10 [60, 60, 60]).take 10)).1 =
      QualitySettings.mk 100 1 1 := by
  have hmem : ∀ h ∈ (List.replicate 10 [60, 60, 60] : List (List ℚ)),
      h = [60, 60, 60] := fun h hh => (List.eq_of_mem_replicate hh)
  refine ⟨by norm_num, fun h hh => by rw [hmem h hh]; norm_num,
    fun h hh => by rw [hmem h hh]; norm_num [deficitOf, avgOf], ?_⟩
  exact (hysteresis_no_change (MonitorConfig.mk 60 80 300 20)
    (QualitySettings.mk 100 1 1) 0 (List.replicate 10 [60, 60, 60])
    (by norm_num) (fun h hh => by rw [hmem h hh]; norm_num)
    (fun h hh => by rw [hmem h hh]; norm_num [deficitOf, avgOf])).1 10

/-- C8 counterexample: `recordFrame(0)` supplies a duration, but the
JavaScript truthiness test `if (frameDuration)` discards it: the FIFO
stays empty instead of receiving the 0 entry. -/
theorem recordFrame_zero_duration_dropped :
    (recordFrame (some 0) (FrameState.mk 5 [])).frameTimes ≠
      (FrameState.mk 5 []).frameTimes ++ [(0 : ℚ)] := by
  simp [recordFrame]

/-- C8 (amended: a *nonzero* supplied duration is appended; a supplied 0
is discarded by the truthiness test): every call increments the frame
counter unconditionally, a nonzero duration is appended to the FIFO, the
FIFO never exceeds 30 entries, and on overflow the oldest entry is
evicted. -/
theorem recordFrame_spec :
    (∀ (d : Option ℚ) (s : FrameState),
      (recordFrame d s).frameCount = s.frameCount + 1) ∧
    (∀ (v : ℚ) (s : FrameState), v ≠ 0 → s.frameTimes.length < 30 →
      (recordFrame (some v) s).frameTimes = s.frameTimes ++ [v]) ∧
    (∀ (v : ℚ) (s : FrameState), v ≠ 0 → s.frameTimes.length = 30 →
      (recordFrame (some v) s).frameTimes = s.frameTimes.tail ++ [v]) ∧
    (∀ (d : Option ℚ) (s : FrameState), s.frameTimes.length ≤ 30 →
      (recordFrame d s).frameTimes.length ≤ 30) := by
  refine ⟨?_, ?_, ?_, ?_⟩
  · intro d s
    cases d with
    | none => rfl
    | some v =>
      simp only [recordFrame]
      split_ifs <;> rfl
  · intro v s hv hlen
    simp only [recordFrame, if_pos hv]
    rw [trimFifo_eq_drop]
    have : (s.frameTimes ++ [v]).length - 30 = 0 := by
      simp only [List.length_append, List.length_singleton]; omega
    rw [this, List.drop_zero]
  · intro v s hv hlen
    simp only [recordFrame, if_pos hv]
    rw [trimFifo_eq_drop]
    have h31 : (s.frameTimes ++ [v]).length - 30 = 1 := by
      simp only [List.length_append, List.length_singleton]; omega
    rw [h31, List.drop_append_of_le_length (by omega), List.drop_one]
  · intro d s hlen
    cases d with
    | none => exact hlen
    | some v =>
      simp only [recordFrame]
      split_ifs with hv
      · rw [trimFifo_eq_drop, List.length_drop]
        omega
      · exact hlen

/-- C8 witness: recording a nonzero duration 7 from an empty state
appends it and bumps the counter. -/
theorem recordFrame_spec_witness :
    (7 : ℚ) ≠ 0 ∧ (FrameState.mk 0 []).frameTimes.length < 30 ∧
    (recordFrame (some 7) (FrameState.mk 0 [])).frameTimes = [(7 : ℚ)] := by
  refine ⟨by norm_num, by norm_num, ?_⟩
  have h := recordFrame_spec.2.1 7 (FrameState.mk 0 []) (by norm_num) (by norm_num)
  rw [h]
  rfl

/-- C9: at each reporting step, fps is `round(frameCount * 1000 /
elapsed)` when the elapsed time is positive and 0 otherwise (never a
division by zero), and the average frame time is the arithmetic mean of
the duration FIFO, 0 when the FIFO is empty. -/
theorem updateMetrics_spec (deltaTime : ℚ) (s : MetricsState) :
    (deltaTime > 0 →
      (updateMetrics deltaTime s).fps =
        ((jsRound ((s.frameCount : ℚ) * 1000 / deltaTime) : ℤ) : ℚ)) ∧
    (deltaTime ≤ 0 → (updateMetrics deltaTime s).fps = 0) ∧
    (s.frameTimes ≠ [] →
      (updateMetrics deltaTime s).frameTime =
        s.frameTimes.sum / (s.frameTimes.length : ℚ)) ∧
    (s.frameTimes = [] → (updateMetrics deltaTime s).frameTime = 0) := by
  refine ⟨?_, ?_, ?_, ?_⟩
  · intro h
    simp only [updateMetrics, if_pos h]
  · intro h
    simp only [updateMetrics, if_neg (not_lt.mpr h)]
  · intro h
    have hlen : s.frameTimes.length > 0 := List.length_pos.mpr h
    simp only [updateMetrics, if_pos hlen]
  · intro h
    simp only [updateMetrics, h, List.length_nil]
    norm_num

/-- C9 witness: 30 frames over 500 ms report 60 fps, and frame times
`[10, 20]` average to 15. -/
theorem updateMetrics_spec_witness :
    ((500 : ℚ) > 0 ∧
      (updateMetrics 500 (MetricsState.mk 30 [10, 20] 0 0 [])).fps = 60) ∧
    ((MetricsState.mk 30 [10, 20] 0 0 []).frameTimes ≠ [] ∧
      (updateMetrics 500 (MetricsState.mk 30 [10, 20] 0 0 [])).frameTime = 15) := by
  constructor
  · refine ⟨by norm_num, ?_⟩
    have h := (updateMetrics_spec 500 (MetricsState.mk 30 [10, 20] 0 0 [])).1
      (by norm_num)
    rw [h]
    norm_num [jsRound]
  · refine ⟨by simp, ?_⟩
    have h := (updateMetrics_spec 500 (MetricsState.mk 30 [10, 20] 0 0 [])).2.2.1
      (by simp)
    rw [h]
    norm_num

/-- C10: the hook performs no configuration validation at all.
`usePerformanceMonitor` destructures its options and proceeds: a
malformed configuration with `minParticleCount = 100 >
maxParticleCount = 50` is accepted silently and produces a running
monitor whose window is inverted — no error is reported at construction
time, contradicting the specified failure semantics. -/
theorem monitor_accepts_malformed_config :
    (resolveMonitorOptions
      (PerformanceMonitorOptions.mk 100 none (some 100) (some 50) none)).minParticleCount =
      100 ∧
    (resolveMonitorOptions
      (PerformanceMonitorOptions.mk 100 none (some 100) (some 50) none)).maxParticleCount =
      50 ∧
    ¬ ((resolveMonitorOptions
      (PerformanceMonitorOptions.mk 100 none (some 100) (some 50) none)).minParticleCount ≤
      (resolveMonitorOptions
        (PerformanceMonitorOptions.mk 100 none (some 100) (some 50) none)).maxParticleCount) := by
  refine ⟨rfl, rfl, by norm_num [resolveMonitorOptions]⟩

/-! ### Neurons: budget lemmas -/

/-- The neighbour scan never pushes the segment list past
`maxSegments`. -/
theorem scanNeighbours_length_le (cfg : NeuronConfig) (ps : List Point) (i : ℕ) :
    ∀ (l : List ℕ) (segs : List (ℕ × ℕ)) (conns checked : ℕ),
      segs.length ≤ cfg.maxSegments →
      (scanNeighbours cfg ps i l segs conns checked).length ≤ cfg.maxSegments := by
  intro l
  induction l with
  | nil =>
    intro segs conns checked h
    simpa only [scanNeighbours] using h
  | cons j rest ih =>
    intro segs conns checked h
    simp only [scanNeighbours]
    split_ifs with h1 h2 h3 h4
    · exact ih segs conns checked h
    · exact h
    · exact h
    · exact ih segs conns (checked + 1) h
    · apply ih
      push_neg at h3
      simp only [List.length_append, List.length_singleton]
      omega

/-- C3: the connection pass never emits more than `maxSegments`
segments, for every configuration and every particle arrangement (in
particular for 1,000 coincident particles with `maxSegments = 50`). -/
theorem segments_le_maxSegments (cfg : NeuronConfig) (ps : List Point) :
    (connectionPass cfg ps).length ≤ cfg.maxSegments := by
  have key : ∀ (L : List ℕ) (segs : List (ℕ × ℕ)),
      segs.length ≤ cfg.maxSegments →
      (L.foldl (connectionStep cfg ps) segs).length ≤ cfg.maxSegments := by
    intro L
    induction L with
    | nil => intro segs h; exact h
    | cons a L ih =>
      intro segs h
      rw [List.foldl_cons]
      apply ih
      unfold connectionStep
      split_ifs with h1 h2
      · exact h
      · exact h
      · exact scanNeighbours_length_le cfg ps a (candidates cfg ps a) segs 0 0 h
  exact key (List.range ps.length) [] (Nat.zero_le _)

/-- The neighbour scan only appends segments with first endpoint `i`,
and (from `conns`) at most `maxConnectionsPerParticle - conns` of them. -/
theorem scanNeighbours_extend (cfg : NeuronConfig) (ps : List Point) (i : ℕ) :
    ∀ (l : List ℕ) (segs : List (ℕ × ℕ)) (conns checked : ℕ),
      ∃ t, scanNeighbours cfg ps i l segs conns checked = segs ++ t ∧
        (∀ p ∈ t, p.1 = i) ∧
        (conns + t.length ≤ cfg.maxConnectionsPerParticle ∨ t = []) := by
  intro l
  induction l with
  | nil =>
    intro segs conns checked
    exact ⟨[], by simp [scanNeighbours], by simp, Or.inr rfl⟩
  | cons j rest ih =>
    intro segs conns checked
    simp only [scanNeighbours]
    split_ifs with h1 h2 h3 h4
    · exact ih segs conns checked
    · exact ⟨[], by simp, by simp, Or.inr rfl⟩
    · exact ⟨[], by simp, by simp, Or.inr rfl⟩
    · exact ih segs conns (checked + 1)
    · obtain ⟨t, ht, hfst, hlen⟩ := ih (segs ++ [(i, j)]) (conns + 1) (checked + 1)
      push_neg at h3
      refine ⟨(i, j) :: t, by rw [ht]; simp, ?_, ?_⟩
      · intro p hp
        rcases List.mem_cons.mp hp with h | h
        · rw [h]
        · exact hfst p h
      · left
        rcases hlen with hlen | hlen
        · simp only [List.length_cons]; omega
        · subst hlen
          simp only [List.length_cons, List.length_nil]
          omega

/-- One outer-loop step appends at most `maxConnectionsPerParticle`
segments, all with first endpoint `i`. -/
theorem connectionStep_extend (cfg : NeuronConfig) (ps : List Point)
    (segs : List (ℕ × ℕ)) (i : ℕ) :
    ∃ t, connectionStep cfg ps segs i = segs ++ t ∧
      (∀ p ∈ t, p.1 = i) ∧ t.length ≤ cfg.maxConnectionsPerParticle := by
  unfold connectionStep
  split_ifs with h1 h2
  · exact ⟨[], by simp, by simp, Nat.zero_le _⟩
  · exact ⟨[], by simp, by simp, Nat.zero_le _⟩
  · obtain ⟨t, ht, hfst, hlen⟩ :=
      scanNeighbours_extend cfg ps i (candidates cfg ps i) segs 0 0
    refine ⟨t, ht, hfst, ?_⟩
    rcases hlen with h | h
    · omega
    · subst h; simp

theorem edgesFrom_append (a b : List (ℕ × ℕ)) (i : ℕ) :
    edgesFrom (a ++ b) i = edgesFrom a i + edgesFrom b i := by
  simp [edgesFrom, List.filter_append]

theorem edgesFrom_le_length (t : List (ℕ × ℕ)) (i : ℕ) :
    edgesFrom t i ≤ t.length :=
  List.length_filter_le _ _

theorem edgesFrom_eq_zero (t : List (ℕ × ℕ)) (i : ℕ)
    (h : ∀ p ∈ t, p.1 ≠ i) : edgesFrom t i = 0 := by
  rw [edgesFrom, List.length_eq_zero, List.filter_eq_nil_iff]
  intro p hp
  simpa using h p hp

/-- C4 (amended: counting only edges whose *first* endpoint is `i`; the
code does not bound how often `i` appears as the second endpoint): for
every frame and every particle `i`, at most `maxConnectionsPerParticle`
emitted edges have `i` as their first endpoint. -/
theorem connections_from_particle_bounded (cfg : NeuronConfig)
    (ps : List Point) (i : ℕ) :
    edgesFrom (connectionPass cfg ps) i ≤ cfg.maxConnectionsPerParticle := by
  have key : ∀ (L : List ℕ) (segs : List (ℕ × ℕ)), L.Nodup →
      (i ∈ L → edgesFrom segs i = 0) →
      edgesFrom segs i ≤ cfg.maxConnectionsPerParticle →
      edgesFrom (L.foldl (connectionStep cfg ps) segs) i ≤
        cfg.maxConnectionsPerParticle := by
    intro L
    induction L with
    | nil => intro segs _ _ h; exact h
    | cons a L ih =>
      intro segs hnd h0 hle
      rw [List.foldl_cons]
      obtain ⟨t, ht, hfst, hlen⟩ := connectionStep_extend cfg ps segs a
      rw [ht]
      by_cases hai : a = i
      · subst hai
        have h00 : edgesFrom segs a = 0 := h0 (List.mem_cons_self a L)
        apply ih _ (List.nodup_cons.mp hnd).2
        · intro hiL
          exact absurd hiL (List.nodup_cons.mp hnd).1
        · rw [edgesFrom_append, h00, zero_add]
          exact le_trans (edgesFrom_le_length t a) hlen
      · have hzero : edgesFrom t i = 0 :=
          edgesFrom_eq_zero t i (fun p hp => by rw [hfst p hp]; exact hai)
        apply ih _ (List.nodup_cons.mp hnd).2
        · intro hiL
          rw [edgesFrom_append, h0 (List.mem_cons_of_mem a hiL), hzero]
        · rw [edgesFrom_append, hzero]
          simpa using hle
  exact key (List.range ps.length) [] (List.nodup_range _)
    (fun _ => rfl) (Nat.zero_le _)

/-! ### Neurons: grid correctness toolbox -/

theorem mem_bucket (cfg : NeuronConfig) (ps : List Point) (k : ℤ × ℤ × ℤ)
    (j : ℕ) :
    j ∈ bucket cfg ps k ↔ j < ps.length ∧ cellOf cfg (pos ps j) = k := by
  simp [bucket, List.mem_filter, List.mem_range]

theorem bucket_nodup (cfg : NeuronConfig) (ps : List Point) (k : ℤ × ℤ × ℤ) :
    (bucket cfg ps k).Nodup :=
  (List.nodup_range _).filter _

theorem stencil_nodup : stencil.Nodup := by decide

theorem mem_stencil (o : ℤ × ℤ × ℤ) :
    o ∈ stencil ↔
      -1 ≤ o.1 ∧ o.1 ≤ 1 ∧ -1 ≤ o.2.1 ∧ o.2.1 ≤ 1 ∧ -1 ≤ o.2.2 ∧ o.2.2 ≤ 1 := by
  obtain ⟨a, b, c⟩ := o
  constructor
  · intro h
    simp only [stencil, List.mem_cons, List.not_mem_nil, or_false,
      Prod.mk.injEq] at h
    rcases h with ⟨h1, h2, h3⟩ | ⟨h1, h2, h3⟩ | ⟨h1, h2, h3⟩ | ⟨h1, h2, h3⟩ |
      ⟨h1, h2, h3⟩ | ⟨h1, h2, h3⟩ | ⟨h1, h2, h3⟩ | ⟨h1, h2, h3⟩ | ⟨h1, h2, h3⟩ |
      ⟨h1, h2, h3⟩ | ⟨h1, h2, h3⟩ | ⟨h1, h2, h3⟩ | ⟨h1, h2, h3⟩ | ⟨h1, h2, h3⟩ |
      ⟨h1, h2, h3⟩ | ⟨h1, h2, h3⟩ | ⟨h1, h2, h3⟩ | ⟨h1, h2, h3⟩ | ⟨h1, h2, h3⟩ |
      ⟨h1, h2, h3⟩ | ⟨h1, h2, h3⟩ | ⟨h1, h2, h3⟩ | ⟨h1, h2, h3⟩ | ⟨h1, h2, h3⟩ |
      ⟨h1, h2, h3⟩ | ⟨h1, h2, h3⟩ | ⟨h1, h2, h3⟩ <;>
      (subst h1; subst h2; subst h3; refine ⟨?_, ?_, ?_, ?_, ?_, ?_⟩ <;> decide)
  · rintro ⟨ha1, ha2, hb1, hb2, hc1, hc2⟩
    interval_cases a <;> interval_cases b <;> interval_cases c <;> decide

theorem mem_candidates (cfg : NeuronConfig) (ps : List Point) (i j : ℕ) :
    j ∈ candidates cfg ps i ↔
      j < ps.length ∧ ∃ o ∈ stencil,
        cellOf cfg (pos ps j) = cellOf cfg (pos ps i) + o := by
  simp only [candidates, List.mem_flatMap, mem_bucket]
  constructor
  · rintro ⟨o, ho, hj, hcell⟩
    exact ⟨hj, o, ho, hcell⟩
  · rintro ⟨hj, o, ho, hcell⟩
    exact ⟨o, ho, hj, hcell⟩

theorem candidates_nodup (cfg : NeuronConfig) (ps : List Point) (i : ℕ) :
    (candidates cfg ps i).Nodup := by
  rw [candidates, List.nodup_flatMap]
  refine ⟨fun o _ => bucket_nodup cfg ps _, ?_⟩
  have hs : stencil.Pairwise (· ≠ ·) := stencil_nodup
  refine hs.imp ?_
  intro o o' hne j hj hj'
  rw [mem_bucket] at hj hj'
  exact hne (add_left_cancel (hj.2 ▸ hj'.2))

theorem candidates_length_le (cfg : NeuronConfig) (ps : List Point) (i : ℕ) :
    (candidates cfg ps i).length ≤ ps.length := by
  have hsub : candidates cfg ps i ⊆ List.range ps.length := by
    intro j hj
    exact List.mem_range.mpr ((mem_candidates cfg ps i j).mp hj).1
  have := (List.subperm_of_subset (candidates_nodup cfg ps i) hsub).length_le
  simpa using this

theorem mem_brutePairs (cfg : NeuronConfig) (ps : List Point) (i j : ℕ) :
    (i, j) ∈ brutePairs cfg ps ↔ qualifies cfg ps i j := by
  simp only [brutePairs, qualifies, List.mem_flatMap, List.mem_map,
    List.mem_filter, List.mem_range, decide_eq_true_eq]
  constructor
  · rintro ⟨a, ha, b, ⟨⟨hb, hab, hd⟩, heq⟩⟩
    injection heq with h1 h2
    subst h1; subst h2
    exact ⟨hab, hb, hd⟩
  · rintro ⟨hij, hj, hd⟩
    exact ⟨i, lt_trans hij hj, j, ⟨⟨hj, hij, hd⟩, rfl⟩⟩

theorem brutePairs_fst (cfg : NeuronConfig) (ps : List Point)
    (p : ℕ × ℕ) (hp : p ∈ brutePairs cfg ps) : qualifies cfg ps p.1 p.2 := by
  obtain ⟨i, j⟩ := p
  exact (mem_brutePairs cfg ps i j).mp hp

theorem brutePairs_nodup (cfg : NeuronConfig) (ps : List Point) :
    (brutePairs cfg ps).Nodup := by
  rw [brutePairs, List.nodup_flatMap]
  constructor
  · intro a _
    refine List.Nodup.map ?_ ((List.nodup_range _).filter _)
    intro x y hxy
    exact (Prod.mk.injEq .. ▸ hxy).2
  · have hs : (List.range ps.length).Pairwise (· ≠ ·) := List.nodup_range _
    refine hs.imp ?_
    intro a a' hne p hp hp'
    simp only [List.mem_map, List.mem_filter] at hp hp'
    obtain ⟨b, _, hb⟩ := hp
    obtain ⟨b', _, hb'⟩ := hp'
    rw [← hb'] at hb
    injection hb with h1 h2
    exact hne h1

/-- Floor coordinates of two scalars at most `cd` apart differ by at
most one cell. -/
theorem cell_coord_close (cd : ℚ) (hcd : 0 < cd) (u v : ℚ)
    (h : (v - u) * (v - u) ≤ cd * cd) :
    -1 ≤ ⌊v * (1 / cd)⌋ - ⌊u * (1 / cd)⌋ ∧
      ⌊v * (1 / cd)⌋ - ⌊u * (1 / cd)⌋ ≤ 1 := by
  have h1 : v - u ≤ cd := by nlinarith
  have h2 : -cd ≤ v - u := by nlinarith
  have hb1 : v * (1 / cd) ≤ u * (1 / cd) + 1 := by
    have hdiv : (v - u) * (1 / cd) ≤ 1 := by
      rw [mul_one_div, div_le_one hcd]
      exact h1
    have := sub_mul v u (1 / cd)
    linarith
  have hb2 : u * (1 / cd) - 1 ≤ v * (1 / cd) := by
    have hdiv : -1 ≤ (v - u) * (1 / cd) := by
      rw [mul_one_div, le_div_iff₀ hcd]
      linarith
    have := sub_mul v u (1 / cd)
    linarith
  have f1 : ⌊v * (1 / cd)⌋ ≤ ⌊u * (1 / cd)⌋ + 1 := by
    have := Int.floor_le_floor hb1
    rwa [Int.floor_add_one] at this
  have f2 : ⌊u * (1 / cd)⌋ - 1 ≤ ⌊v * (1 / cd)⌋ := by
    have := Int.floor_le_floor hb2
    rwa [show u * (1 / cd) - 1 = u * (1 / cd) - (1 : ℤ) by norm_num,
      Int.floor_sub_int] at this
  omega

/-- A qualifying pair lies within the 27-cell stencil: since the cell
size equals `connectionDistance`, the cells of two particles within
`connectionDistance` differ by at most one in every coordinate, so `j`
is among the candidates scanned for `i`. -/
theorem qualifies_mem_candidates (cfg : NeuronConfig) (ps : List Point)
    (hcd : 0 < cfg.connectionDistance) (i j : ℕ)
    (hq : qualifies cfg ps i j) : j ∈ candidates cfg ps i := by
  obtain ⟨hij, hj, hd⟩ := hq
  have hinv : invCellSize cfg = 1 / cfg.connectionDistance := by
    rw [invCellSize, if_pos hcd]
  have hdx : ((pos ps j).x - (pos ps i).x) * ((pos ps j).x - (pos ps i).x) ≤
      cfg.connectionDistance * cfg.connectionDistance := by
    have h1 := mul_self_nonneg ((pos ps j).y - (pos ps i).y)
    have h2 := mul_self_nonneg ((pos ps j).z - (pos ps i).z)
    rw [distSq] at hd
    linarith
  have hdy : ((pos ps j).y - (pos ps i).y) * ((pos ps j).y - (pos ps i).y) ≤
      cfg.connectionDistance * cfg.connectionDistance := by
    have h1 := mul_self_nonneg ((pos ps j).x - (pos ps i).x)
    have h2 := mul_self_nonneg ((pos ps j).z - (pos ps i).z)
    rw [distSq] at hd
    linarith
  have hdz : ((pos ps j).z - (pos ps i).z) * ((pos ps j).z - (pos ps i).z) ≤
      cfg.connectionDistance * cfg.connectionDistance := by
    have h1 := mul_self_nonneg ((pos ps j).x - (pos ps i).x)
    have h2 := mul_self_nonneg ((pos ps j).y - (pos ps i).y)
    rw [distSq] at hd
    linarith
  have hx := cell_coord_close cfg.connectionDistance hcd
    (pos ps i).x (pos ps j).x hdx
  have hy := cell_coord_close cfg.connectionDistance hcd
    (pos ps i).y (pos ps j).y hdy
  have hz := cell_coord_close cfg.connectionDistance hcd
    (pos ps i).z (pos ps j).z hdz
  rw [mem_candidates]
  refine ⟨hj, (⌊(pos ps j).x * (1 / cfg.connectionDistance)⌋ -
      ⌊(pos ps i).x * (1 / cfg.connectionDistance)⌋,
    ⌊(pos ps j).y * (1 / cfg.connectionDistance)⌋ -
      ⌊(pos ps i).y * (1 / cfg.connectionDistance)⌋,
    ⌊(pos ps j).z * (1 / cfg.connectionDistance)⌋ -
      ⌊(pos ps i).z * (1 / cfg.connectionDistance)⌋), ?_, ?_⟩
  · rw [mem_stencil]
    dsimp only
    exact ⟨by omega, by omega, by omega, by omega, by omega, by omega⟩
  · simp only [cellOf, hinv, Prod.mk_add_mk, Prod.mk.injEq]
    refine ⟨by omega, by omega, by omega⟩

/-- Once the emitted list is as long as the whole brute-force edge list,
it already contains every brute-force edge. -/
theorem brute_subset_of_full (cfg : NeuronConfig) (ps : List Point)
    (segs : List (ℕ × ℕ)) (hnd : segs.Nodup)
    (hsub : ∀ p ∈ segs, p ∈ brutePairs cfg ps)
    (hlen : (brutePairs cfg ps).length ≤ segs.length) :
    ∀ p ∈ brutePairs cfg ps, p ∈ segs := by
  intro p hp
  have h1 : segs.toFinset ⊆ (brutePairs cfg ps).toFinset := by
    intro x hx
    rw [List.mem_toFinset] at hx ⊢
    exact hsub x hx
  have h2 : (brutePairs cfg ps).toFinset.card ≤ segs.toFinset.card := by
    rw [List.toFinset_card_of_nodup hnd,
      List.toFinset_card_of_nodup (brutePairs_nodup cfg ps)]
    exact hlen
  have h3 := Finset.eq_of_subset_of_card_le h1 h2
  rw [← List.mem_toFinset, ← h3, List.mem_toFinset] at hp
  exact hp

/-- Full specification of the neighbour scan under generous budgets:
the result is duplicate-free, sound (only brute-force edges, extending
`segs` with edges from `i` only), and complete for every in-range
candidate beyond `i` within `connectionDistance`. -/
theorem scanNeighbours_spec (cfg : NeuronConfig) (ps : List Point) (i : ℕ)
    (hconn : (brutePairs cfg ps).length ≤ cfg.maxConnectionsPerParticle)
    (hseg : (brutePairs cfg ps).length ≤ cfg.maxSegments) :
    ∀ (l : List ℕ) (segs : List (ℕ × ℕ)) (conns checked : ℕ),
      segs.Nodup →
      (∀ p ∈ segs, p ∈ brutePairs cfg ps) →
      conns ≤ segs.length →
      checked + l.length ≤ cfg.neighbourScanLimit →
      l.Nodup →
      (∀ j ∈ l, j < ps.length) →
      (∀ j ∈ l, (i, j) ∉ segs) →
      (scanNeighbours cfg ps i l segs conns checked).Nodup ∧
      (∀ p ∈ scanNeighbours cfg ps i l segs conns checked,
        p ∈ brutePairs cfg ps) ∧
      (∀ p ∈ scanNeighbours cfg ps i l segs conns checked,
        p ∈ segs ∨ p.1 = i) ∧
      (∀ p ∈ segs, p ∈ scanNeighbours cfg ps i l segs conns checked) ∧
      (∀ j ∈ l, i < j →
        distSq (pos ps i) (pos ps j) ≤
          cfg.connectionDistance * cfg.connectionDistance →
        (i, j) ∈ scanNeighbours cfg ps i l segs conns checked) := by
  intro l
  induction l with
  | nil =>
    intro segs conns checked hnd hsub _ _ _ _ _
    simp only [scanNeighbours]
    exact ⟨hnd, hsub, fun p hp => Or.inl hp, fun p hp => hp,
      fun j hj => absurd hj (List.not_mem_nil j)⟩
  | cons j rest ih =>
    intro segs conns checked hnd hsub hcs hlim lnd hlt hnotin
    have hlim1 : checked + rest.length + 1 ≤ cfg.neighbourScanLimit := by
      simpa [List.length_cons, Nat.add_assoc] using hlim
    simp only [scanNeighbours]
    split_ifs with h1 h2 h3 h4
    · -- j ≤ i : skipped without counting
      obtain ⟨c1, c2, c3, c4, c5⟩ := ih segs conns checked hnd hsub hcs
        (by omega) (List.nodup_cons.mp lnd).2
        (fun a ha => hlt a (List.mem_cons_of_mem j ha))
        (fun a ha => hnotin a (List.mem_cons_of_mem j ha))
      refine ⟨c1, c2, c3, c4, ?_⟩
      intro a ha hia hda
      rcases List.mem_cons.mp ha with rfl | ha
      · exact absurd h1 (not_le.mpr hia)
      · exact c5 a ha hia hda
    · -- scan limit break: impossible under the limit hypothesis
      exact absurd h2 (by omega)
    · -- budget break: the emitted list already holds every brute edge
      refine ⟨hnd, hsub, fun p hp => Or.inl hp, fun p hp => hp, ?_⟩
      intro a ha hia hda
      exfalso
      have hfull : (brutePairs cfg ps).length ≤ segs.length := by
        rcases h3 with h3 | h3
        · omega
        · omega
      have hmem : (i, a) ∈ brutePairs cfg ps :=
        (mem_brutePairs cfg ps i a).mpr ⟨hia, hlt a ha, hda⟩
      exact hnotin a ha (brute_subset_of_full cfg ps segs hnd hsub hfull _ hmem)
    · -- out of range: skipped after counting
      obtain ⟨c1, c2, c3, c4, c5⟩ := ih segs conns (checked + 1) hnd hsub hcs
        (by omega) (List.nodup_cons.mp lnd).2
        (fun a ha => hlt a (List.mem_cons_of_mem j ha))
        (fun a ha => hnotin a (List.mem_cons_of_mem j ha))
      refine ⟨c1, c2, c3, c4, ?_⟩
      intro a ha hia hda
      rcases List.mem_cons.mp ha with rfl | ha
      · exact absurd hda (not_le.mpr h4)
      · exact c5 a ha hia hda
    · -- emit (i, j)
      have hij : i < j := not_le.mp h1
      have hjn : j < ps.length := hlt j (List.mem_cons_self j rest)
      have hd : distSq (pos ps i) (pos ps j) ≤
          cfg.connectionDistance * cfg.connectionDistance := not_lt.mp h4
      have hnew : (i, j) ∈ brutePairs cfg ps :=
        (mem_brutePairs cfg ps i j).mpr ⟨hij, hjn, hd⟩
      have hnotin_j : (i, j) ∉ segs := hnotin j (List.mem_cons_self j rest)
      have hnd' : (segs ++ [(i, j)]).Nodup := by
        rw [List.nodup_append]
        refine ⟨hnd, List.nodup_singleton _, ?_⟩
        intro a ha hb
        rw [List.mem_singleton] at hb
        subst hb
        exact hnotin_j ha
      have hsub' : ∀ p ∈ segs ++ [(i, j)], p ∈ brutePairs cfg ps := by
        intro p hp
        rcases List.mem_append.mp hp with hp | hp
        · exact hsub p hp
        · rw [List.mem_singleton] at hp
          subst hp
          exact hnew
      have hnotin' : ∀ a ∈ rest, (i, a) ∉ segs ++ [(i, j)] := by
        intro a ha hmem
        rcases List.mem_append.mp hmem with hmem | hmem
        · exact hnotin a (List.mem_cons_of_mem j ha) hmem
        · rw [List.mem_singleton] at hmem
          injection hmem with hm1 hm2
          exact (List.nodup_cons.mp lnd).1 (hm2 ▸ ha)
      obtain ⟨c1, c2, c3, c4, c5⟩ := ih (segs ++ [(i, j)]) (conns + 1)
        (checked + 1) hnd' hsub'
        (by simp only [List.length_append, List.length_singleton]; omega)
        (by omega) (List.nodup_cons.mp lnd).2
        (fun a ha => hlt a (List.mem_cons_of_mem j ha)) hnotin'
      refine ⟨c1, c2, ?_, ?_, ?_⟩
      · intro p hp
        rcases c3 p hp with hp' | hp'
        · rcases List.mem_append.mp hp' with hp'' | hp''
          · exact Or.inl hp''
          · rw [List.mem_singleton] at hp''
            subst hp''
            exact Or.inr rfl
        · exact Or.inr hp'
      · intro p hp
        exact c4 p (List.mem_append_left _ hp)
      · intro a ha hia hda
        rcases List.mem_cons.mp ha with rfl | ha
        · exact c4 (i, a) (List.mem_append_right _ (List.mem_singleton.mpr rfl))
        · exact c5 a ha hia hda

/-- Full specification of the outer particle loop under generous
budgets. -/
theorem foldl_connection_spec (cfg : NeuronConfig) (ps : List Point)
    (hcd : 0 < cfg.connectionDistance)
    (hscan : ps.length ≤ cfg.neighbourScanLimit)
    (hconn : (brutePairs cfg ps).length ≤ cfg.maxConnectionsPerParticle)
    (hseg : (brutePairs cfg ps).length ≤ cfg.maxSegments) :
    ∀ (L : List ℕ) (segs : List (ℕ × ℕ)), L.Nodup →
      (∀ a ∈ L, a < ps.length) →
      segs.Nodup →
      (∀ p ∈ segs, p ∈ brutePairs cfg ps) →
      (∀ p ∈ segs, p.1 ∉ L) →
      (L.foldl (connectionStep cfg ps) segs).Nodup ∧
      (∀ p ∈ L.foldl (connectionStep cfg ps) segs, p ∈ brutePairs cfg ps) ∧
      (∀ p ∈ segs, p ∈ L.foldl (connectionStep cfg ps) segs) ∧
      (∀ a ∈ L, ∀ j, qualifies cfg ps a j →
        (a, j) ∈ L.foldl (connectionStep cfg ps) segs) := by
  intro L
  induction L with
  | nil =>
    intro segs _ _ hnd hsub _
    exact ⟨hnd, hsub, fun p hp => hp,
      fun a ha => absurd ha (List.not_mem_nil a)⟩
  | cons a L ih =>
    intro segs Lnd hLlt hnd hsub hfst
    have haL : a ∉ L := (List.nodup_cons.mp Lnd).1
    have han : a < ps.length := hLlt a (List.mem_cons_self a L)
    rw [List.foldl_cons]
    have hbne : ¬ (bucket cfg ps (cellOf cfg (pos ps a))).length = 0 := by
      have : a ∈ bucket cfg ps (cellOf cfg (pos ps a)) :=
        (mem_bucket cfg ps _ a).mpr ⟨han, rfl⟩
      intro hz
      rw [List.length_eq_zero] at hz
      rw [hz] at this
      exact List.not_mem_nil a this
    by_cases hsegfull : segs.length ≥ cfg.maxSegments
    · -- segment budget exhausted: segs already holds every brute edge
      have hstep : connectionStep cfg ps segs a = segs := by
        unfold connectionStep
        rw [if_neg hbne, if_pos hsegfull]
      rw [hstep]
      obtain ⟨c1, c2, c3, c4⟩ := ih segs (List.nodup_cons.mp Lnd).2
        (fun b hb => hLlt b (List.mem_cons_of_mem a hb)) hnd hsub
        (fun p hp hpL => hfst p hp (List.mem_cons_of_mem a hpL))
      refine ⟨c1, c2, c3, ?_⟩
      intro b hb j hq
      rcases List.mem_cons.mp hb with rfl | hb
      · have hmem : (b, j) ∈ brutePairs cfg ps :=
          (mem_brutePairs cfg ps b j).mpr hq
        exact c3 _ (brute_subset_of_full cfg ps segs hnd hsub
          (by omega) _ hmem)
      · exact c4 b hb j hq
    · have hstep : connectionStep cfg ps segs a =
          scanNeighbours cfg ps a (candidates cfg ps a) segs 0 0 := by
        unfold connectionStep
        rw [if_neg hbne, if_neg hsegfull]
      rw [hstep]
      obtain ⟨s1, s2, s3, s4, s5⟩ := scanNeighbours_spec cfg ps a hconn hseg
        (candidates cfg ps a) segs 0 0 hnd hsub (Nat.zero_le _)
        (by have := candidates_length_le cfg ps a; omega)
        (candidates_nodup cfg ps a)
        (fun j hj => ((mem_candidates cfg ps a j).mp hj).1)
        (fun j hj hmem =>
          hfst (a, j) hmem (List.mem_cons_self a L))
      have hfstS : ∀ p ∈ scanNeighbours cfg ps a (candidates cfg ps a) segs 0 0,
          p.1 ∉ L := by
        intro p hp hpL
        rcases s3 p hp with hp' | hp'
        · exact hfst p hp' (List.mem_cons_of_mem a hpL)
        · exact haL (hp' ▸ hpL)
      obtain ⟨c1, c2, c3, c4⟩ := ih
        (scanNeighbours cfg ps a (candidates cfg ps a) segs 0 0)
        (List.nodup_cons.mp Lnd).2
        (fun b hb => hLlt b (List.mem_cons_of_mem a hb)) s1 s2 hfstS
      refine ⟨c1, c2, fun p hp => c3 p (s4 p hp), ?_⟩
      intro b hb j hq
      rcases List.mem_cons.mp hb with rfl | hb
      · have hcand : j ∈ candidates cfg ps b :=
          qualifies_mem_candidates cfg ps hcd b j hq
        exact c3 _ (s5 j hcand hq.1 hq.2.2)
      · exact c4 b hb j hq

/-- C1 (amended: `neighbourScanLimit` must cover the number of
*particles*, not merely the number of qualifying pairs, because the scan
counter also counts scanned candidates that end up beyond
`connectionDistance`): for at most 200 particles, positive
`connectionDistance`, `neighbourScanLimit ≥ particle count` and
`maxConnectionsPerParticle`, `maxSegments` at least the number of
qualifying pairs, the grid-based connection pass emits exactly the
brute-force all-pairs edge set. -/
theorem grid_matches_bruteforce (cfg : NeuronConfig) (ps : List Point)
    (_h200 : ps.length ≤ 200)
    (hcd : 0 < cfg.connectionDistance)
    (hscan : ps.length ≤ cfg.neighbourScanLimit)
    (hconn : (brutePairs cfg ps).length ≤ cfg.maxConnectionsPerParticle)
    (hseg : (brutePairs cfg ps).length ≤ cfg.maxSegments) :
    ∀ p, p ∈ connectionPass cfg ps ↔ p ∈ brutePairs cfg ps := by
  obtain ⟨c1, c2, c3, c4⟩ := foldl_connection_spec cfg ps hcd hscan hconn hseg
    (List.range ps.length) [] (List.nodup_range _)
    (fun a ha => List.mem_range.mp ha) List.nodup_nil
    (fun p hp => absurd hp (List.not_mem_nil p))
    (fun p hp => absurd hp (List.not_mem_nil p))
  intro p
  constructor
  · intro hp
    exact c2 p hp
  · intro hp
    have hq := brutePairs_fst cfg ps p hp
    have hp1 : p.1 ∈ List.range ps.length :=
      List.mem_range.mpr (lt_trans hq.1 hq.2.1)
    have := c4 p.1 hp1 p.2 hq
    simpa using this

set_option maxHeartbeats 4000000 in
/-- C1 counterexample: budgets "at least the number of qualifying pairs"
do not prevent the neighbour-scan early exit.  Three particles at
`(0,0,0)`, `(−1,−1,−1)`, `(1,0,0)` with `connectionDistance = 1` have
exactly one qualifying pair, `(0, 2)`; with all three budgets equal to 1
(the number of qualifying pairs), the scan for particle 0 spends its
single allowed candidate on the non-qualifying neighbour 1 (scanned
first, stencil order) and breaks out before reaching particle 2, so the
grid pass emits nothing while brute force emits `(0, 2)`. -/
theorem grid_misses_qualifying_pair :
    ([Point.mk 0 0 0, Point.mk (-1) (-1) (-1), Point.mk 1 0 0] :
      List Point).length ≤ 200 ∧
    (brutePairs (NeuronConfig.mk 1 1 1 1)
      [Point.mk 0 0 0, Point.mk (-1) (-1) (-1), Point.mk 1 0 0]).length ≤
      (NeuronConfig.mk 1 1 1 1).maxConnectionsPerParticle ∧
    (brutePairs (NeuronConfig.mk 1 1 1 1)
      [Point.mk 0 0 0, Point.mk (-1) (-1) (-1), Point.mk 1 0 0]).length ≤
      (NeuronConfig.mk 1 1 1 1).neighbourScanLimit ∧
    (brutePairs (NeuronConfig.mk 1 1 1 1)
      [Point.mk 0 0 0, Point.mk (-1) (-1) (-1), Point.mk 1 0 0]).length ≤
      (NeuronConfig.mk 1 1 1 1).maxSegments ∧
    (0, 2) ∈ brutePairs (NeuronConfig.mk 1 1 1 1)
      [Point.mk 0 0 0, Point.mk (-1) (-1) (-1), Point.mk 1 0 0] ∧
    (0, 2) ∉ connectionPass (NeuronConfig.mk 1 1 1 1)
      [Point.mk 0 0 0, Point.mk (-1) (-1) (-1), Point.mk 1 0 0] := by
  have hb : brutePairs (NeuronConfig.mk 1 1 1 1)
      [Point.mk 0 0 0, Point.mk (-1) (-1) (-1), Point.mk 1 0 0] = [(0, 2)] := by
    norm_num [brutePairs, pos, distSq, List.range_succ]
  have hc : connectionPass (NeuronConfig.mk 1 1 1 1)
      [Point.mk 0 0 0, Point.mk (-1) (-1) (-1), Point.mk 1 0 0] = [] := by
    norm_num [connectionPass, connectionStep, scanNeighbours, candidates,
      bucket, cellOf, invCellSize, stencil, pos, distSq, List.range_succ,
      Prod.ext_iff]
  rw [hb, hc]
  refine ⟨by norm_num, by norm_num, by norm_num, by norm_num, ?_, ?_⟩
  · exact List.mem_singleton.mpr rfl
  · exact List.not_mem_nil _

/-- C1 witness: two particles at distance 1 with `connectionDistance 2`,
scan limit 2 (the particle count) and unit budgets: the grid pass and
brute force agree on the pair `(0, 1)`. -/
theorem grid_matches_bruteforce_witness :
    (([Point.mk 0 0 0, Point.mk 1 0 0] : List Point).length ≤ 200 ∧
      (0 : ℚ) < (NeuronConfig.mk 2 1 2 1).connectionDistance ∧
      ([Point.mk 0 0 0, Point.mk 1 0 0] : List Point).length ≤
        (NeuronConfig.mk 2 1 2 1).neighbourScanLimit ∧
      (brutePairs (NeuronConfig.mk 2 1 2 1)
        [Point.mk 0 0 0, Point.mk 1 0 0]).length ≤
        (NeuronConfig.mk 2 1 2 1).maxConnectionsPerParticle ∧
      (brutePairs (NeuronConfig.mk 2 1 2 1)
        [Point.mk 0 0 0, Point.mk 1 0 0]).length ≤
        (NeuronConfig.mk 2 1 2 1).maxSegments) ∧
    ((0, 1) ∈ connectionPass (NeuronConfig.mk 2 1 2 1)
        [Point.mk 0 0 0, Point.mk 1 0 0] ↔
      (0, 1) ∈ brutePairs (NeuronConfig.mk 2 1 2 1)
        [Point.mk 0 0 0, Point.mk 1 0 0]) := by
  have hb : brutePairs (NeuronConfig.mk 2 1 2 1)
      [Point.mk 0 0 0, Point.mk 1 0 0] = [(0, 1)] := by
    norm_num [brutePairs, pos, distSq, List.range_succ]
  refine ⟨⟨by norm_num, by norm_num, by norm_num,
    by rw [hb]; norm_num, by rw [hb]; norm_num⟩, ?_⟩
  exact grid_matches_bruteforce (NeuronConfig.mk 2 1 2 1)
    [Point.mk 0 0 0, Point.mk 1 0 0] (by norm_num) (by norm_num)
    (by norm_num) (by rw [hb]; norm_num) (by rw [hb]; norm_num) (0, 1)

set_option maxHeartbeats 4000000 in
/-- C4 counterexample: the code only budgets edges in which `i` is the
*first* endpoint.  A star of three particles — satellites 0 and 1 within
range of centre 2 but out of range of each other — with
`maxConnectionsPerParticle = 1` emits `(0,2)` and `(1,2)`: particle 2 is
included in 2 edges, exceeding the budget of 1. -/
theorem second_endpoint_degree_unbounded :
    (NeuronConfig.mk 4 1 10 10).maxConnectionsPerParticle = 1 ∧
    edgesIncluding (connectionPass (NeuronConfig.mk 4 1 10 10)
      [Point.mk (-3) 0 0, Point.mk 3 0 0, Point.mk 0 0 0]) 2 = 2 ∧
    ¬ (edgesIncluding (connectionPass (NeuronConfig.mk 4 1 10 10)
      [Point.mk (-3) 0 0, Point.mk 3 0 0, Point.mk 0 0 0]) 2 ≤
      (NeuronConfig.mk 4 1 10 10).maxConnectionsPerParticle) := by
  have hc : connectionPass (NeuronConfig.mk 4 1 10 10)
      [Point.mk (-3) 0 0, Point.mk 3 0 0, Point.mk 0 0 0] =
      [(0, 2), (1, 2)] := by
    norm_num [connectionPass, connectionStep, scanNeighbours, candidates,
      bucket, cellOf, invCellSize, stencil, pos, distSq, List.range_succ,
      Prod.ext_iff]
  rw [hc]
  refine ⟨rfl, by decide, by decide⟩

end Particles
